import Mathlib

/-!
Verification of the declarative parameter schema compiler, the configuration
merge engine and the prompt templating engine of the workflows-mcp repository.

The TypeScript sources embedded here are
`packages/mcp-server/src/config.ts` (parameter shapes, the JSON-Schema and
Zod compilers, `mergeConfigs`, `mergeTools`, `validateToolConfig`) and
`packages/mcpn/src/utils.ts` (`processTemplate`, `appendFormattedTools`).
JavaScript objects are modelled as insertion-ordered association lists,
JavaScript values as a JSON value tree, and compiled Zod validators as a
schema tree together with an acceptance function giving the runtime
semantics of the Zod combinators the source uses.
-/

namespace WorkflowsMcp

/-- JavaScript/JSON values: the argument values, default values and the
wire schemas (plain JS objects) produced by the compiler. Object fields are
kept in insertion order, as JS objects are. Numbers are modelled as
integers, which covers every value the configuration layer manipulates. -/
inductive JsonValue where
  | nullV
  | boolV (b : Bool)
  | numV (n : Int)
  | strV (s : String)
  | arrV (xs : List JsonValue)
  | objV (fields : List (String × JsonValue))

/-- Members of an `enum` list in a parameter declaration: `(string | number)[]`
in the source. -/
inductive EnumValue where
  | str (s : String)
  | num (n : Int)
  deriving Repr, DecidableEq

/-- Is this enum member a JS number (`typeof v === "number"`)? -/
def EnumValue.isNum : EnumValue → Bool
  | .str _ => false
  | .num _ => true

/-- Embeds an enum member into the JSON value tree. -/
def evToJson : EnumValue → JsonValue
  | .str s => .strV s
  | .num n => .numV n

/-- Property access `obj[k]` on a JS object modelled as an association list:
the first binding of the key, if any. -/
def alookup (l : List (String × α)) (k : String) : Option α :=
  match l with
  | [] => none
  | (k', v) :: rest => if k' = k then some v else alookup rest k

/-- De-duplication keeping the first occurrence of each element, which is the
iteration order of a JS `Set` built from a list. -/
def dedupFirstAux (seen : List String) : List String → List String
  | [] => []
  | x :: xs => if seen.contains x then dedupFirstAux seen xs
               else x :: dedupFirstAux (x :: seen) xs

/-- JS `Array.from(new Set(l))`: the elements of `l` in first-occurrence order. -/
def dedupFirst (l : List String) : List String := dedupFirstAux [] l

/-- The `ParameterConfig` interface of `config.ts`: a parameter shape. The
`type` is kept as an optional raw string because the validator has to deal
with declarations whose tag is missing or unrecognized. The `required` flag
is a plain `Bool` (JS truthiness of the optional boolean field), every other
optional field is an `Option` recording whether the YAML declared it. -/
inductive ParameterConfig where
  | mk (type : Option String) (description : Option String) (required : Bool)
       (default : Option JsonValue) (enum : Option (List EnumValue))
       (items : Option ParameterConfig)
       (properties : Option (List (String × ParameterConfig)))

def ParameterConfig.type : ParameterConfig → Option String
  | .mk t _ _ _ _ _ _ => t

def ParameterConfig.description : ParameterConfig → Option String
  | .mk _ d _ _ _ _ _ => d

def ParameterConfig.required : ParameterConfig → Bool
  | .mk _ _ r _ _ _ _ => r

def ParameterConfig.default : ParameterConfig → Option JsonValue
  | .mk _ _ _ d _ _ _ => d

def ParameterConfig.enum : ParameterConfig → Option (List EnumValue)
  | .mk _ _ _ _ e _ _ => e

def ParameterConfig.items : ParameterConfig → Option ParameterConfig
  | .mk _ _ _ _ _ i _ => i

def ParameterConfig.properties : ParameterConfig → Option (List (String × ParameterConfig))
  | .mk _ _ _ _ _ _ p => p

/-- The `description` field copied onto a produced schema node, when present. -/
def descFields : Option String → List (String × JsonValue)
  | some d => [("description", .strV d)]
  | none => []

/-- The `default` field copied onto a produced schema node, when present
(`param.default !== undefined`). -/
def defaultFields : Option JsonValue → List (String × JsonValue)
  | some d => [("default", d)]
  | none => []

/-- The `required.push(name)` accumulation of `convertParametersToJsonSchema`:
the names whose parameter has `required` set, in declaration order. -/
def requiredNames : List (String × ParameterConfig) → List String
  | [] => []
  | (n, p) :: rest => if p.required then n :: requiredNames rest else requiredNames rest

mutual
/-- The `convertParameterToJsonSchema` function of `config.ts`: lowers one
parameter shape to a JSON-Schema node. The `switch` has no `default` case,
so an unrecognized tag leaves the schema without a `type` field. The
`object` case is the source inlined: it wraps the properties through the
mapping-level conversion and copies `properties` and a non-empty `required`
out of the result. -/
def convertParameterToJsonSchema : ParameterConfig → JsonValue
  | .mk type description _required dflt enumVals items properties =>
    let base : List (String × JsonValue) :=
      match type with
      | some "string" => [("type", .strV "string")]
      | some "number" => [("type", .strV "number")]
      | some "boolean" => [("type", .strV "boolean")]
      | some "array" =>
        match items with
        | some it => [("type", .strV "array"), ("items", convertParameterToJsonSchema it)]
        | none => [("type", .strV "array"), ("items", .objV [("type", .strV "string")])]
      | some "object" =>
        match properties with
        | some props =>
          [("type", .strV "object"), ("properties", .objV (jsonProps props))] ++
            (if (requiredNames props).isEmpty then []
             else [("required", .arrV ((requiredNames props).map .strV))])
        | none => [("type", .strV "object"), ("additionalProperties", .boolV true)]
      | some "enum" =>
        match enumVals with
        | some (v :: vs) =>
          [("type", .strV (if v.isNum then "number" else "string")),
           ("enum", .arrV ((v :: vs).map evToJson))]
        | _ => [("type", .strV "string"), ("enum", .arrV [])]
      | _ => []
    .objV (base ++ descFields description ++ defaultFields dflt)

/-- The `properties[name] = convertParameterToJsonSchema(param)` loop of
`convertParametersToJsonSchema`, in iteration order. -/
def jsonProps : List (String × ParameterConfig) → List (String × JsonValue)
  | [] => []
  | (n, p) :: rest => (n, convertParameterToJsonSchema p) :: jsonProps rest
end

/-- The `convertParametersToJsonSchema` function of `config.ts`: wraps a
mapping of named shapes as an object schema, spreading in the `required`
list only when it is non-empty. -/
def convertParametersToJsonSchema (parameters : List (String × ParameterConfig)) : JsonValue :=
  .objV ([("type", .strV "object"), ("properties", .objV (jsonProps parameters))] ++
    (if (requiredNames parameters).isEmpty then []
     else [("required", .arrV ((requiredNames parameters).map .strV))]))

/-- The Zod schema trees the validator compiler builds: exactly the
combinators `convertParameterToZodSchema` uses (`z.string()`, `z.number()`,
`z.boolean()`, `z.array`, `z.object`, `z.record(z.unknown())`, `z.union` of
`z.literal`s, `z.enum`, `.optional()`, `.default()`, `.describe()`). -/
inductive ZodSchema where
  | zString
  | zNumber
  | zBoolean
  | zArray (item : ZodSchema)
  | zObject (props : List (String × ZodSchema))
  | zRecordUnknown
  | zUnion (opts : List ZodSchema)
  | zLiteral (v : EnumValue)
  | zEnum (vals : List EnumValue)
  | zOptional (s : ZodSchema)
  | zDefault (d : JsonValue) (s : ZodSchema)
  | zDescribe (d : String) (s : ZodSchema)

/-- Runtime semantics of `z.literal(v)`: strict equality with the literal. -/
def literalAccepts : EnumValue → JsonValue → Bool
  | .str s, .strV s' => s == s'
  | .num n, .numV n' => n == n'
  | _, _ => false

mutual
/-- Acceptance semantics of a compiled Zod validator on a present value, per
the Zod runtime: `z.enum` first requires a string input and then membership
in the option list; `z.object` checks every declared property and ignores
undeclared keys; `.describe` and `.default` are transparent on present
values. -/
def zodAccepts (s : ZodSchema) (v : JsonValue) : Bool :=
  match s, v with
  | .zString, .strV _ => true
  | .zString, _ => false
  | .zNumber, .numV _ => true
  | .zNumber, _ => false
  | .zBoolean, .boolV _ => true
  | .zBoolean, _ => false
  | .zArray s, .arrV xs => xs.all (fun x => zodAccepts s x)
  | .zArray _, _ => false
  | .zObject props, .objV fields => propsAccept props fields
  | .zObject _, _ => false
  | .zRecordUnknown, .objV _ => true
  | .zRecordUnknown, _ => false
  | .zUnion opts, v => anyAccepts opts v
  | .zLiteral e, v => literalAccepts e v
  | .zEnum vals, .strV s => vals.contains (.str s)
  | .zEnum _, _ => false
  | .zOptional s, v => zodAccepts s v
  | .zDefault _ s, v => zodAccepts s v
  | .zDescribe _ s, v => zodAccepts s v

/-- The property loop of `z.object`: each declared property must accept the
looked-up field, or accept absence when the key is missing. -/
def propsAccept (props : List (String × ZodSchema)) (fields : List (String × JsonValue)) : Bool :=
  match props with
  | [] => true
  | (n, s) :: rest =>
    (match alookup fields n with
     | some v => zodAccepts s v
     | none => acceptsMissing s) && propsAccept rest fields

/-- Whether a compiled validator accepts an absent (`undefined`) field:
`.optional()` does, `.default(d)` substitutes `d` and re-validates it, and
`.describe` delegates; every base combinator rejects `undefined`. -/
def acceptsMissing : ZodSchema → Bool
  | .zOptional _ => true
  | .zDefault d s => zodAccepts s d
  | .zDescribe _ s => acceptsMissing s
  | _ => false

/-- Semantics of `z.union`: some option accepts the value. -/
def anyAccepts (opts : List ZodSchema) (v : JsonValue) : Bool :=
  match opts with
  | [] => false
  | s :: rest => zodAccepts s v || anyAccepts rest v
end

/-- The two wrapping steps closing `convertParameterToZodSchema`:
`.describe(...)` when a description is declared, then `.default(...)`
outermost when a default is declared. -/
def zodWrap (desc : Option String) (dflt : Option JsonValue) (b : ZodSchema) : ZodSchema :=
  match dflt with
  | some d => .zDefault d (match desc with
                           | some dd => ZodSchema.zDescribe dd b
                           | none => b)
  | none => match desc with
            | some dd => ZodSchema.zDescribe dd b
            | none => b

mutual
/-- The `convertParameterToZodSchema` function of `config.ts`: lowers one
parameter shape to a Zod validator. Unlike the JSON-Schema side, the
`switch` here has a `default` case falling back to `z.string()`. The
`describe` and `default` wrappers are applied afterwards when declared. -/
def convertParameterToZodSchema : ParameterConfig → ZodSchema
  | .mk type description _required dflt enumVals items properties =>
    zodWrap description dflt
      (match type with
       | some "string" => .zString
       | some "number" => .zNumber
       | some "boolean" => .zBoolean
       | some "array" =>
         match items with
         | some it => .zArray (convertParameterToZodSchema it)
         | none => .zArray .zString
       | some "object" =>
         match properties with
         | some props => .zObject (convertParametersToZodSchema props)
         | none => .zRecordUnknown
       | some "enum" =>
         match enumVals with
         | some (v :: vs) =>
           if v.isNum then .zUnion ((v :: vs).map .zLiteral)
           else .zEnum (v :: vs)
         | _ => .zEnum [.str ""]
       | _ => .zString)

/-- The `convertParametersToZodSchema` function of `config.ts`: compiles each
named shape and wraps it with `.optional()` unless `required` is set. -/
def convertParametersToZodSchema : List (String × ParameterConfig) → List (String × ZodSchema)
  | [] => []
  | (n, p) :: rest =>
    (n, if p.required then convertParameterToZodSchema p
        else .zOptional (convertParameterToZodSchema p)) :: convertParametersToZodSchema rest
end

/-- The `ToolConfig` interface of `config.ts`: the record form of a tool
reference. Every field is optional in a YAML declaration, so a JS spread
copies exactly the declared ones. -/
structure ToolConfig where
  name : Option String := none
  description : Option String := none
  prompt : Option String := none
  optional : Option Bool := none
  parameters : Option (List (String × ParameterConfig)) := none

/-- One value of a `tools` mapping: either a plain description string or a
full `ToolConfig` record. -/
inductive ToolEntry where
  | str (s : String)
  | cfg (c : ToolConfig)

/-- The `tools` field of a prompt configuration: a comma-separated string of
names or a mapping from name to `ToolEntry`. -/
inductive Tools where
  | str (s : String)
  | obj (entries : List (String × ToolEntry))

/-- The `PromptConfig` interface of `config.ts`. -/
structure PromptConfig where
  prompt : Option String := none
  context : Option String := none
  tools : Option Tools := none
  toolMode : Option String := none
  description : Option String := none
  disabled : Option Bool := none
  name : Option String := none
  parameters : Option (List (String × ParameterConfig)) := none

/-- A declaration set: mapping from tool name to prompt configuration, in
insertion order. -/
abbrev DevToolsConfig := List (String × PromptConfig)

/-- JS whitespace as removed by `String.prototype.trim` (restricted to the
ASCII whitespace that can occur here). -/
def jsWhitespace (c : Char) : Bool :=
  c == ' ' || c == '\t' || c == '\n' || c == '\r'

/-- JS `s.trim()` over the character list: strip whitespace at both ends. -/
def trimChars (cs : List Char) : List Char :=
  ((cs.dropWhile jsWhitespace).reverse.dropWhile jsWhitespace).reverse

/-- JS `s.trim()`. -/
def jsTrim (s : String) : String := String.mk (trimChars s.data)

/-- JS `s.split(",")` over the character list: the groups between commas.
Splitting the empty string yields one empty group, as in JS. -/
def splitComma : List Char → List (List Char)
  | [] => [[]]
  | c :: rest =>
    match splitComma rest with
    | g :: gs => if c = ',' then [] :: g :: gs else (c :: g) :: gs
    | [] => [[c]]

/-- Splitting a comma-separated tools string into trimmed names:
`s.split(",").map((t) => t.trim())`. -/
def toks (s : String) : List String :=
  (splitComma s.data).map (fun g => String.mk (trimChars g))

/-- JS spread `{ ...base, ...overlay }` on two tool records: each field the
overlay declares overwrites the base field. -/
def spreadToolConfig (base overlay : ToolConfig) : ToolConfig :=
  { name := overlay.name <|> base.name,
    description := overlay.description <|> base.description,
    prompt := overlay.prompt <|> base.prompt,
    optional := overlay.optional <|> base.optional,
    parameters := overlay.parameters <|> base.parameters }

/-- The per-key step of the object-merge loop in `mergeTools`: when both
values are objects they are deep-merged by spread, otherwise the source
value replaces the target value. -/
def mergeToolEntry (old new : ToolEntry) : ToolEntry :=
  match old, new with
  | .cfg b, .cfg o => .cfg (spreadToolConfig b o)
  | _, _ => new

/-- Normalization of a `tools` value to object form, as in `mergeTools`:
`Object.fromEntries(tools.split(",").map((t) => [t.trim(), ""]))`. A JS
object keeps the first-inserted position of a repeated key, and every value
produced here is the same empty string, so first-occurrence de-duplication
reproduces `Object.fromEntries` exactly. -/
def toolsToObject : Tools → List (String × ToolEntry)
  | .str s => (dedupFirst (toks s)).map (fun t => (t, .str ""))
  | .obj entries => entries

/-- Updating `result[key]` on a JS object modelled as an association list:
combine with the existing binding via `m` when the key is present, append a
new binding otherwise. -/
def upsertWith (m : α → α → α) : List (String × α) → String → α → List (String × α)
  | [], k, v => [(k, v)]
  | (k', v') :: rest, k, v =>
    if k' = k then (k', m v' v) :: rest else (k', v') :: upsertWith m rest k v

/-- The `for key of source`-style merge loop shared by `mergeConfigs` and the
object branch of `mergeTools`: fold the source entries into the target. -/
def mergeAssoc (m : α → α → α) (target source : List (String × α)) : List (String × α) :=
  source.foldl (fun acc kv => upsertWith m acc kv.1 kv.2) target

/-- JS truthiness of a tools value, as tested by the `!targetTools` and
`!sourceTools` guards of `mergeTools`: an absent value and the empty
string are falsy, every other string and every object is truthy. -/
def toolsTruthy : Option Tools → Bool
  | none => false
  | some (.str s) => s != ""
  | some (.obj _) => true

/-- The `mergeTools` helper of `config.ts`. The three leading guards mirror
the JS falsiness checks: if both sides are falsy the result is undefined,
and if one side is falsy the other is returned unchanged (so an
empty-string side is treated as absent). Past the guards, two non-empty
strings merge as a de-duplicated `Set` of trimmed names re-joined with a
comma and space; otherwise both sides are normalized to object form and
merged per key, deep-merging only when both values are objects. The final
catch-all arm is unreachable: past the guards both sides are present. -/
def mergeTools (targetTools sourceTools : Option Tools) : Option Tools :=
  if !toolsTruthy targetTools && !toolsTruthy sourceTools then
    none
  else if !toolsTruthy targetTools then
    sourceTools
  else if !toolsTruthy sourceTools then
    targetTools
  else
    match targetTools, sourceTools with
    | some (.str s1), some (.str s2) =>
      some (.str (String.intercalate ", " (dedupFirst (toks s1 ++ toks s2))))
    | some t1, some t2 =>
      some (.obj (mergeAssoc mergeToolEntry (toolsToObject t1) (toolsToObject t2)))
    | _, _ => none

/-- The per-key merge of `mergeConfigs` when the key exists in the target:
`{ ...target[key], ...value, tools: mergeTools(target[key]?.tools, value?.tools) }`. -/
def mergePromptConfig (target source : PromptConfig) : PromptConfig :=
  { prompt := source.prompt <|> target.prompt,
    context := source.context <|> target.context,
    tools := mergeTools target.tools source.tools,
    toolMode := source.toolMode <|> target.toolMode,
    description := source.description <|> target.description,
    disabled := source.disabled <|> target.disabled,
    name := source.name <|> target.name,
    parameters := source.parameters <|> target.parameters }

/-- The `mergeConfigs` function of `config.ts`, as a pure function returning
the mutated target: every source key is merged into the target when already
present and appended otherwise. -/
def mergeConfigs (target source : DevToolsConfig) : DevToolsConfig :=
  mergeAssoc mergePromptConfig target source

/-- The `validTypes` list of `validateToolConfig` and
`validateNestedParameter`. -/
def validTypes : List String := ["string", "number", "boolean", "array", "object", "enum"]

/-- JS falsiness of `param.type`: the field is missing or the empty string. -/
def typeFalsy : Option String → Bool
  | none => true
  | some s => s == ""

/-- The enum validity test of the validator:
`!param.enum || !Array.isArray(param.enum) || param.enum.length === 0`. -/
def enumMissingOrEmpty : Option (List EnumValue) → Bool
  | some (_ :: _) => false
  | _ => true

mutual
/-- The `validateNestedParameter` helper of `config.ts`: checks the enum
constraint of the parameter itself, then recursively the declared
properties of an object parameter and the item shape of an array
parameter. The type tag of the parameter itself was checked by the caller. -/
def validateNestedParameter : ParameterConfig → String → Option String
  | .mk type _desc _req _dflt enumVals items properties, path =>
    if type == some "enum" && enumMissingOrEmpty enumVals then
      some ("Parameter \"" ++ path ++ "\" of type \"enum\" must have a non-empty enum array")
    else
      match (if type == some "object" then
               match properties with
               | some props => validateNestedProps props path
               | none => none
             else none) with
      | some e => some e
      | none =>
        if type == some "array" then
          match items with
          | some it =>
            if typeFalsy it.type then
              some ("Items in array parameter \"" ++ path ++ "\" must specify a type")
            else if !(validTypes.contains (it.type.getD "")) then
              some ("Items in array parameter \"" ++ path ++ "\" have invalid type \"" ++
                it.type.getD "" ++ "\"")
            else validateNestedParameter it (path ++ " items")
          | none => none
        else none

/-- The loop over an object parameter's properties, written out identically
in `validateToolConfig` and `validateNestedParameter`: each nested
parameter needs a present, recognized type tag and must validate
recursively. -/
def validateNestedProps : List (String × ParameterConfig) → String → Option String
  | [], _ => none
  | (nestedName, nestedParam) :: rest, path =>
    if typeFalsy nestedParam.type then
      some ("Nested parameter \"" ++ nestedName ++ "\" in \"" ++ path ++
        "\" is missing type property")
    else if !(validTypes.contains (nestedParam.type.getD "")) then
      some ("Nested parameter \"" ++ nestedName ++ "\" in \"" ++ path ++
        "\" has invalid type \"" ++ nestedParam.type.getD "" ++ "\"")
    else
      match validateNestedParameter nestedParam (path ++ "." ++ nestedName) with
      | some e => some e
      | none => validateNestedProps rest path

/-- The `for (const [paramName, param] of Object.entries(toolConfig.parameters))`
loop of `validateToolConfig`: per top-level parameter, a present recognized
type tag, the enum constraint, and the same object/array recursion as
`validateNestedParameter`. -/
def validateParams : List (String × ParameterConfig) → Option String
  | [] => none
  | (paramName, .mk type _desc _req _dflt enumVals items properties) :: rest =>
    if typeFalsy type then
      some ("Parameter \"" ++ paramName ++ "\" is missing type property")
    else if !(validTypes.contains (type.getD "")) then
      some ("Parameter \"" ++ paramName ++ "\" has invalid type \"" ++ type.getD "" ++ "\"")
    else if type == some "enum" && enumMissingOrEmpty enumVals then
      some ("Parameter \"" ++ paramName ++ "\" of type \"enum\" must have a non-empty enum array")
    else
      match (if type == some "object" then
               match properties with
               | some props => validateNestedProps props paramName
               | none => none
             else none) with
      | some e => some e
      | none =>
        if type == some "array" then
          match items with
          | some it =>
            if typeFalsy it.type then
              some ("Items in array parameter \"" ++ paramName ++ "\" must specify a type")
            else if !(validTypes.contains (it.type.getD "")) then
              some ("Items in array parameter \"" ++ paramName ++ "\" have invalid type \"" ++
                it.type.getD "" ++ "\"")
            else
              match validateNestedParameter it (paramName ++ " items") with
              | some e => some e
              | none => validateParams rest
          | none => validateParams rest
        else validateParams rest
end

/-- The `validateToolConfig` function of `config.ts`: resolves the tool and
validates its declared parameters, returning an error string or `null`. -/
def validateToolConfig (config : DevToolsConfig) (toolName : String) : Option String :=
  match alookup config toolName with
  | none => some ("Tool \"" ++ toolName ++ "\" not found in configuration")
  | some toolConfig =>
    match toolConfig.parameters with
    | none => none
    | some parameters => validateParams parameters

/-- The `ToolItem` interface of `utils.ts`: one entry of a normalized tools
list. The `optional` flag is a plain `Bool` (JS truthiness). -/
structure ToolItem where
  name : String
  description : Option String := none
  prompt : Option String := none
  optional : Bool := false

/-- JS truthiness of an optional string field such as `tool.description`:
false when the field is absent or the empty string. -/
def truthy : Option String → Bool
  | none => false
  | some s => s != ""

/-- The per-tool conditional chain shared verbatim by the two loops of
`appendFormattedTools`: separator, description, dash, prompt and the
`" (Optional)"` suffix, followed by the newline. -/
def toolLineBody (tool : ToolItem) : String :=
  (if (!truthy tool.prompt && truthy tool.description) ||
      (truthy tool.prompt && truthy tool.description) then ": " else "") ++
  (if truthy tool.description then tool.description.getD "" else "") ++
  (if truthy tool.prompt && truthy tool.description then " - " else "") ++
  (if truthy tool.prompt && !truthy tool.description then ": " else "") ++
  (if truthy tool.prompt then tool.prompt.getD "" else "") ++
  (if tool.optional then " (Optional)" else "") ++
  "\n"

/-- The numbered loop of the `sequential` mode of `appendFormattedTools`. -/
def sequentialLines (index : Nat) : List ToolItem → String
  | [] => ""
  | tool :: rest =>
    toString (index + 1) ++ ". " ++ tool.name ++ toolLineBody tool ++
      sequentialLines (index + 1) rest

/-- The bulleted loop of the default (situational) mode of
`appendFormattedTools`. -/
def situationalLines : List ToolItem → String
  | [] => ""
  | tool :: rest => "- " ++ tool.name ++ toolLineBody tool ++ situationalLines rest

/-- Intro sentence of the sequential mode. -/
def sequentialIntro : String :=
  "If all required user input/feedback is acquired or if no input/feedback is needed, execute this exact sequence of tools to complete this task:\n\n"

/-- Intro sentence of the situational (default) mode. -/
def situationalIntro : String :=
  "Use these tools as needed to complete the user\x27s request:\n\n"

/-- Trailing instruction appended by `appendFormattedTools` in both modes. -/
def toolsTrailer : String :=
  "\nAfter using each tool, return a \x27Next Steps\x27 section with a list of the next steps to take / remaining tools to invoke along with each tool\x27s prompt/description and \x27optional\x27 flag if present."

/-- The `appendFormattedTools` function of `utils.ts`. -/
def appendFormattedTools (baseText : String) (toolsList : List ToolItem)
    (toolMode : Option String) : String :=
  if toolsList.isEmpty then baseText
  else
    (baseText ++ "\n\n## Available Tools\n") ++
      (if toolMode == some "sequential" then sequentialIntro ++ sequentialLines 0 toolsList
       else situationalIntro ++ situationalLines toolsList) ++
      toolsTrailer

mutual
/-- JS `String(value)` coercion as used by template substitution: numbers and
booleans print, `null` prints as "null", arrays join their elements with a
comma (eliding nulls, per `Array.prototype.join`), plain objects print as
"[object Object]". -/
def jsToString : JsonValue → String
  | .nullV => "null"
  | .boolV b => if b then "true" else "false"
  | .numV n => toString n
  | .strV s => s
  | .arrV xs => String.intercalate "," (joinParts xs)
  | .objV _ => "[object Object]"

/-- Element stringification of `Array.prototype.join`: `null` becomes the
empty string, everything else coerces via `String(...)`. -/
def joinParts : List JsonValue → List String
  | [] => []
  | x :: xs =>
    (match x with
     | .nullV => ""
     | v => jsToString v) :: joinParts xs
end

/-- Whether the character list starts with the two closing braces of a
`\x7b\x7b ... \x7d\x7d` placeholder token. -/
def closesBraces : List Char → Bool
  | '}' :: '}' :: _ => true
  | _ => false

/-- The scan of `template.replace(/\{\{\s*([^}]+)\s*\}\}/g, ...)` over the
character list, mirroring the regex engine: at a position starting with two
opening braces, a token matches when the maximal following run of
non-closing-brace characters is non-empty and is followed by two closing
braces; the captured name is that run, trimmed (the surrounding whitespace
groups of the regex plus the `trim()` call in the replacer). A matched
token whose name is bound is replaced by the stringified value and the name
is recorded; an unbound token is emitted verbatim; on a failed match the
scan advances one character, as the regex engine does. Returns the output
and the recorded names in encounter order, with repetitions. -/
def processChars (params : List (String × JsonValue)) : Nat → List Char → String × List String
  | _, [] => ("", [])
  | 0, cs => (String.mk cs, [])
  | fuel + 1, '{' :: '{' :: rest =>
    let r := rest.takeWhile (fun c => c ≠ '}')
    if !r.isEmpty && closesBraces (rest.drop r.length) then
      let name := String.mk (trimChars r)
      let res := processChars params fuel ((rest.drop r.length).drop 2)
      match alookup params name with
      | some v => (jsToString v ++ res.1, name :: res.2)
      | none => ("\x7b\x7b" ++ String.mk r ++ "\x7d\x7d" ++ res.1, res.2)
    else
      let res := processChars params fuel ('{' :: rest)
      ("\x7b" ++ res.1, res.2)
  | fuel + 1, c :: cs =>
    let res := processChars params fuel cs
    (String.mk [c] ++ res.1, res.2)

/-- The `processTemplate` function of `utils.ts`: placeholder substitution
with used-parameter tracking. With no parameters the template is returned
unscanned; the used names are the distinct recorded names in
first-occurrence order, as a JS `Set` iterates. The scan is run with the
character count as recursion bound: every scanner step consumes at least
one character, so the bound branch is never taken. -/
def processTemplate (template : String) (params : List (String × JsonValue)) :
    String × List String :=
  if params.isEmpty then (template, [])
  else
    let res := processChars params template.data.length template.data
    (res.1, dedupFirst res.2)

/-- Recognized type tag check: present and a member of `validTypes`. -/
def typeOk : Option String → Bool
  | some s => validTypes.contains s
  | none => false

mutual
/-- Claim-side well-formedness of a parameter body, own type tag aside: a
declared enum is non-empty, declared object properties are recursively
well-formed with recognized tags, a declared array item shape likewise. -/
def wfBody : ParameterConfig → Bool
  | .mk type _desc _req _dflt enumVals items properties =>
    (if type == some "enum" then !enumMissingOrEmpty enumVals else true) &&
    (if type == some "object" then
       (match properties with
        | some props => wfProps props
        | none => true)
     else true) &&
    (if type == some "array" then
       (match items with
        | some it => typeOk it.type && wfBody it
        | none => true)
     else true)

/-- Claim-side well-formedness of a property mapping: every property has a
recognized type tag and a well-formed body. -/
def wfProps : List (String × ParameterConfig) → Bool
  | [] => true
  | (_, p) :: rest => (typeOk p.type && wfBody p) && wfProps rest
end

/-- Claim-side well-formedness of a declared parameter: recognized type tag
and well-formed body at every depth. -/
def wfParam (p : ParameterConfig) : Bool := typeOk p.type && wfBody p

/-- Modelled from the claim wording of C4, for comparison with the source
normalization: a string-form side turns into a mapping from each trimmed
name to the record with empty description, empty prompt and optional set to
false (where the source maps each name to the empty string instead). -/
def normalizeToolsSpec : Tools → List (String × ToolEntry)
  | .str s => (dedupFirst (toks s)).map
      (fun t => (t, .cfg { description := some "", prompt := some "", optional := some false }))
  | .obj entries => entries

/-- Modelled from the claim wording of C4: like `mergeTools` but with the
claimed record normalization of string-form sides. -/
def mergeToolsSpec : Option Tools → Option Tools → Option Tools
  | none, none => none
  | none, some sourceTools => some sourceTools
  | some targetTools, none => some targetTools
  | some targetTools, some sourceTools =>
    match targetTools, sourceTools with
    | .str s1, .str s2 =>
      some (.str (String.intercalate ", " (dedupFirst (toks s1 ++ toks s2))))
    | t1, t2 =>
      some (.obj (mergeAssoc mergeToolEntry (normalizeToolsSpec t1) (normalizeToolsSpec t2)))

theorem alookup_none_of_not_mem (l : List (String × α)) (j : String)
    (h : j ∉ l.map Prod.fst) : alookup l j = none := by
  induction l with
  | nil => rfl
  | cons hd tl ih =>
    obtain ⟨k, v⟩ := hd
    simp only [List.map_cons, List.mem_cons, not_or] at h
    have hkj : ¬k = j := fun hh => h.1 hh.symm
    simp only [alookup, if_neg hkj]
    exact ih h.2

theorem alookup_upsertWith (m : α → α → α) (l : List (String × α)) (k : String) (v : α)
    (j : String) :
    alookup (upsertWith m l k v) j =
      if j = k then
        (match alookup l k with
         | some w => some (m w v)
         | none => some v)
      else alookup l j := by
  induction l with
  | nil =>
    by_cases hj : j = k
    · subst hj; simp [upsertWith, alookup]
    · have hkj : ¬k = j := fun h => hj h.symm
      simp [upsertWith, alookup, hj, hkj]
  | cons hd tl ih =>
    obtain ⟨k', v'⟩ := hd
    by_cases hk : k' = k
    · subst hk
      by_cases hj : j = k'
      · subst hj; simp [upsertWith, alookup]
      · have hkj : ¬k' = j := fun h => hj h.symm
        simp [upsertWith, alookup, hj, hkj]
    · simp only [upsertWith, if_neg hk]
      by_cases hj : k' = j
      · have h1 : ¬j = k := fun h => hk (hj.trans h)
        simp [alookup, hj, h1]
      · simp only [alookup, if_neg hj, if_neg hk]
        exact ih

/-- Combination of the two lookups a key merge produces: present on both
sides means merged, present on one side means that side. -/
def combineOpt (m : α → α → α) : Option α → Option α → Option α
  | some b, some o => some (m b o)
  | b, none => b
  | none, some o => some o

theorem alookup_mergeAssoc (m : α → α → α) (target source : List (String × α))
    (hs : (source.map Prod.fst).Nodup) (j : String) :
    alookup (mergeAssoc m target source) j =
      combineOpt m (alookup target j) (alookup source j) := by
  induction source generalizing target with
  | nil =>
    simp only [mergeAssoc, List.foldl_nil, alookup]
    cases alookup target j <;> simp [combineOpt]
  | cons hd tl ih =>
    obtain ⟨k, v⟩ := hd
    simp only [List.map_cons, List.nodup_cons] at hs
    have step : mergeAssoc m target ((k, v) :: tl) = mergeAssoc m (upsertWith m target k v) tl := by
      simp [mergeAssoc]
    rw [step, ih _ hs.2, alookup_upsertWith]
    by_cases hj : j = k
    · subst hj
      have htl : alookup tl j = none :=
        alookup_none_of_not_mem tl j hs.1
      rw [htl]
      simp only [alookup, if_pos rfl, if_pos rfl]
      cases alookup target j <;> simp [combineOpt]
    · simp only [if_neg hj, alookup, if_neg (fun h : k = j => hj h.symm)]

theorem alookup_eq_of_mem_nodup {l : List (String × α)} {n : String} {p : α}
    (hnd : (l.map Prod.fst).Nodup) (hmem : (n, p) ∈ l) : alookup l n = some p := by
  induction l with
  | nil => cases hmem
  | cons hd tl ih =>
    obtain ⟨k, v⟩ := hd
    simp only [List.map_cons, List.nodup_cons] at hnd
    rcases List.mem_cons.1 hmem with h | h
    · cases h
      simp [alookup]
    · have hk : ¬k = n := by
        intro hkn
        subst hkn
        exact hnd.1 (List.mem_map.2 ⟨(k, p), h, rfl⟩)
      simp only [alookup, if_neg hk]
      exact ih hnd.2 h

theorem mem_dedupFirstAux (l : List String) :
    ∀ (seen : List String) (x : String), x ∈ dedupFirstAux seen l ↔ x ∈ l ∧ x ∉ seen := by
  induction l with
  | nil => simp [dedupFirstAux]
  | cons hd tl ih =>
    intro seen x
    by_cases hc : seen.contains hd
    · have hhd : hd ∈ seen := List.elem_iff.1 hc
      simp only [dedupFirstAux, if_pos hc, ih, List.mem_cons]
      constructor
      · rintro ⟨hx, hns⟩
        exact ⟨Or.inr hx, hns⟩
      · rintro ⟨hx | hx, hns⟩
        · subst hx; exact absurd hhd hns
        · exact ⟨hx, hns⟩
    · simp only [dedupFirstAux, if_neg hc, List.mem_cons, ih]
      constructor
      · rintro (rfl | ⟨hx, hns⟩)
        · exact ⟨Or.inl rfl, fun h => hc (List.elem_iff.2 h)⟩
        · exact ⟨Or.inr hx, fun h => hns (Or.inr h)⟩
      · rintro ⟨rfl | hx, hns⟩
        · exact Or.inl rfl
        · by_cases hxh : x = hd
          · exact Or.inl hxh
          · exact Or.inr ⟨hx, fun h => h.elim hxh hns⟩

theorem mem_dedupFirst (l : List String) (x : String) : x ∈ dedupFirst l ↔ x ∈ l := by
  simp [dedupFirst, mem_dedupFirstAux]

theorem zodAccepts_zodWrap (desc : Option String) (dflt : Option JsonValue) (b : ZodSchema)
    (j : JsonValue) : zodAccepts (zodWrap desc dflt b) j = zodAccepts b j := by
  cases desc <;> cases dflt <;> simp [zodWrap, zodAccepts]

theorem acceptsMissing_zodWrap_none (desc : Option String) (b : ZodSchema) :
    acceptsMissing (zodWrap desc none b) = acceptsMissing b := by
  cases desc <;> simp [zodWrap, acceptsMissing]

theorem literalAccepts_iff (e : EnumValue) (j : JsonValue) :
    literalAccepts e j = true ↔ evToJson e = j := by
  cases e <;> cases j <;> simp [literalAccepts, evToJson]

theorem anyAccepts_map_literal (vs : List EnumValue) (j : JsonValue) :
    anyAccepts (vs.map .zLiteral) j = true ↔ ∃ e ∈ vs, evToJson e = j := by
  induction vs with
  | nil => simp [anyAccepts]
  | cons v rest ih => simp [anyAccepts, zodAccepts, literalAccepts_iff, ih]

theorem zEnum_accepts_iff (vals : List EnumValue) (j : JsonValue) :
    zodAccepts (.zEnum vals) j = true ↔ ∃ s, j = .strV s ∧ EnumValue.str s ∈ vals := by
  cases j <;> simp [zodAccepts, List.elem_iff]

/-- C1: for a non-empty enum value list of one primitive kind, both
compilers choose the kind from the first value: the wire schema carries
type "number" when the first value is a number and "string" otherwise, its
enum field is the declared value list, and the compiled validator accepts
exactly the listed literals. -/
theorem enum_kind_chosen_from_first (v : EnumValue) (vs : List EnumValue)
    (desc : Option String) (req : Bool) (dflt : Option JsonValue)
    (items : Option ParameterConfig) (props : Option (List (String × ParameterConfig)))
    (hk : ∀ u ∈ vs, u.isNum = v.isNum) :
    (∃ fields,
      convertParameterToJsonSchema (.mk (some "enum") desc req dflt (some (v :: vs)) items props) =
        .objV fields ∧
      alookup fields "type" = some (.strV (if v.isNum then "number" else "string")) ∧
      alookup fields "enum" = some (.arrV ((v :: vs).map evToJson))) ∧
    (∀ j, zodAccepts (convertParameterToZodSchema
        (.mk (some "enum") desc req dflt (some (v :: vs)) items props)) j = true
      ↔ j ∈ (v :: vs).map evToJson) := by
  constructor
  · refine ⟨_, rfl, ?_, ?_⟩ <;> simp [convertParameterToJsonSchema, alookup]
  · intro j
    have hz : convertParameterToZodSchema
        (.mk (some "enum") desc req dflt (some (v :: vs)) items props) =
        zodWrap desc dflt (if v.isNum then ZodSchema.zUnion ((v :: vs).map .zLiteral)
                           else .zEnum (v :: vs)) := rfl
    rw [hz, zodAccepts_zodWrap]
    by_cases hnum : v.isNum
    · rw [if_pos hnum]
      simp only [zodAccepts]
      rw [anyAccepts_map_literal]
      simp only [List.mem_map, List.mem_cons, eq_comm]
    · rw [if_neg hnum]
      rw [zEnum_accepts_iff]
      constructor
      · rintro ⟨s, rfl, hs⟩
        exact List.mem_map.2 ⟨.str s, hs, rfl⟩
      · intro hj
        rcases List.mem_map.1 hj with ⟨u, hu, rfl⟩
        have hus : u.isNum = false := by
          rcases List.mem_cons.1 hu with rfl | hmem
          · simpa using hnum
          · rw [hk u hmem]; simpa using hnum
        cases u with
        | num n => simp [EnumValue.isNum] at hus
        | str s => exact ⟨s, rfl, hu⟩

/-- Witness for C1 at the enum `[1, 2]`: the wire schema is numeric with the
declared list, the validator accepts the listed literal 2 and rejects 4. -/
theorem enum_kind_chosen_from_first_witness :
    (zodAccepts (convertParameterToZodSchema
      (.mk (some "enum") none false none (some [.num 1, .num 2]) none none)) (.numV 2) = true) ∧
    (zodAccepts (convertParameterToZodSchema
      (.mk (some "enum") none false none (some [.num 1, .num 2]) none none)) (.numV 4) = false) := by
  have h := (enum_kind_chosen_from_first (.num 1) [.num 2] none false none none none
    (by decide)).2
  constructor
  · exact (h (.numV 2)).2 (by simp [evToJson])
  · have h4 := h (.numV 4)
    by_contra hc
    simp only [Bool.not_eq_false] at hc
    have := h4.1 hc
    simp [evToJson] at this

/-- C6: an enum parameter whose value list is empty or absent compiles on
the wire side to the degenerate schema with type "string" and empty enum
list, and on the validator side to a validator accepting exactly the empty
string; both compilers stay total on this input. -/
theorem enum_empty_degenerate (e : Option (List EnumValue)) (he : e = none ∨ e = some [])
    (desc : Option String) (req : Bool) (dflt : Option JsonValue)
    (items : Option ParameterConfig) (props : Option (List (String × ParameterConfig))) :
    (∃ fields,
      convertParameterToJsonSchema (.mk (some "enum") desc req dflt e items props) =
        .objV fields ∧
      alookup fields "type" = some (.strV "string") ∧
      alookup fields "enum" = some (.arrV [])) ∧
    (∀ j, zodAccepts (convertParameterToZodSchema
        (.mk (some "enum") desc req dflt e items props)) j = true ↔ j = .strV "") := by
  have key : ∀ j, zodAccepts (zodWrap desc dflt (.zEnum [.str ""])) j = true ↔ j = .strV "" := by
    intro j
    rw [zodAccepts_zodWrap, zEnum_accepts_iff]
    constructor
    · rintro ⟨s, rfl, hs⟩
      simp only [List.mem_singleton, EnumValue.str.injEq] at hs
      rw [hs]
    · rintro rfl
      exact ⟨"", rfl, List.mem_singleton.2 rfl⟩
  rcases he with rfl | rfl
  · exact ⟨⟨_, rfl, by simp [alookup], by simp [alookup]⟩, key⟩
  · exact ⟨⟨_, rfl, by simp [alookup], by simp [alookup]⟩, key⟩

/-- Witness for C6 at `enum: []`: the validator accepts the empty string and
rejects the string "a". -/
theorem enum_empty_degenerate_witness :
    (zodAccepts (convertParameterToZodSchema
      (.mk (some "enum") none false none (some []) none none)) (.strV "") = true) ∧
    (zodAccepts (convertParameterToZodSchema
      (.mk (some "enum") none false none (some []) none none)) (.strV "a") = false) := by
  have h := (enum_empty_degenerate (some []) (Or.inr rfl) none false none none none).2
  constructor
  · exact (h (.strV "")).2 rfl
  · by_contra hc
    simp only [Bool.not_eq_false] at hc
    have := (h (.strV "a")).1 hc
    simp at this

/-- C5 counterexample: for the unrecognized tag "frobnicate" the wire-schema
compiler does not produce the claimed string scalar schema with
type "string"; its switch has no default case, so it emits the empty
schema. -/
theorem unknown_tag_wire_not_string_cex :
    convertParameterToJsonSchema (.mk (some "frobnicate") none false none none none none) =
      .objV [] ∧
    JsonValue.objV [] ≠ .objV [("type", .strV "string")] :=
  ⟨rfl, by simp⟩

/-- C5 amended: both compilers are total for a missing or unrecognized type
tag and neither raises, but only the validator compiler falls back to a
string scalar (a validator accepting exactly the strings); the wire-schema
compiler emits a schema with no type field, carrying only the copied
description and default. -/
theorem unknown_tag_fallback (t : Option String) (ht : typeOk t = false)
    (desc : Option String) (req : Bool) (dflt : Option JsonValue)
    (e : Option (List EnumValue)) (items : Option ParameterConfig)
    (props : Option (List (String × ParameterConfig))) :
    convertParameterToJsonSchema (.mk t desc req dflt e items props) =
      .objV (descFields desc ++ defaultFields dflt) ∧
    (∀ j, zodAccepts (convertParameterToZodSchema (.mk t desc req dflt e items props)) j = true
      ↔ ∃ s, j = .strV s) := by
  have hstr : ∀ j, zodAccepts (zodWrap desc dflt .zString) j = true ↔ ∃ s, j = JsonValue.strV s := by
    intro j
    rw [zodAccepts_zodWrap]
    cases j <;> simp [zodAccepts]
  cases t with
  | none => exact ⟨rfl, hstr⟩
  | some s =>
    constructor
    · rw [convertParameterToJsonSchema.eq_def]
      simp only []
      split <;> simp_all [typeOk, validTypes]
    · have hz : convertParameterToZodSchema (.mk (some s) desc req dflt e items props) =
          zodWrap desc dflt .zString := by
        rw [convertParameterToZodSchema.eq_def]
        simp only []
        congr 1
        split <;> simp_all [typeOk, validTypes]
      rw [hz]
      exact hstr

/-- Witness for C5 amended at the tag "frobnicate": the wire schema is the
empty object schema and the validator accepts the string "anything" and
rejects the number 1. -/
theorem unknown_tag_fallback_witness :
    convertParameterToJsonSchema (.mk (some "frobnicate") none false none none none none) =
      .objV [] ∧
    zodAccepts (convertParameterToZodSchema
      (.mk (some "frobnicate") none false none none none none)) (.strV "anything") = true ∧
    zodAccepts (convertParameterToZodSchema
      (.mk (some "frobnicate") none false none none none none)) (.numV 1) = false := by
  have h := unknown_tag_fallback (some "frobnicate") (by decide) none false none none none none
  refine ⟨h.1, (h.2 (.strV "anything")).2 ⟨"anything", rfl⟩, ?_⟩
  by_contra hc
  simp only [Bool.not_eq_false] at hc
  have := (h.2 (.numV 1)).1 hc
  simp at this

theorem requiredNames_eq_filter (params : List (String × ParameterConfig)) :
    requiredNames params = (params.filter (fun np => np.2.required)).map Prod.fst := by
  induction params with
  | nil => rfl
  | cons hd tl ih =>
    obtain ⟨n, p⟩ := hd
    by_cases hr : p.required <;> simp [requiredNames, List.filter, hr, ih]

theorem propsAccept_eq_all (props : List (String × ZodSchema))
    (fields : List (String × JsonValue)) :
    propsAccept props fields = props.all (fun e =>
      match alookup fields e.1 with
      | some v => zodAccepts e.2 v
      | none => acceptsMissing e.2) := by
  induction props with
  | nil => simp [propsAccept]
  | cons hd tl ih =>
    obtain ⟨n, s⟩ := hd
    simp [propsAccept, ih]

theorem convertParametersToZodSchema_eq_map (params : List (String × ParameterConfig)) :
    convertParametersToZodSchema params = params.map (fun np =>
      (np.1, if np.2.required then convertParameterToZodSchema np.2
             else .zOptional (convertParameterToZodSchema np.2))) := by
  induction params with
  | nil => rfl
  | cons hd tl ih =>
    obtain ⟨n, p⟩ := hd
    simp [convertParametersToZodSchema, ih]

theorem acceptsMissing_convert (p : ParameterConfig) (hd : p.default = none) :
    acceptsMissing (convertParameterToZodSchema p) = false := by
  obtain ⟨t, desc, req, dflt, e, it, pr⟩ := p
  have hdn : dflt = none := hd
  subst hdn
  rw [convertParameterToZodSchema.eq_def]
  simp only []
  rw [acceptsMissing_zodWrap_none]
  repeat' split
  all_goals simp [acceptsMissing]

theorem mem_keyNodup_unique {l : List (String × α)} {n : String} {p q : α}
    (hnd : (l.map Prod.fst).Nodup) (hp : (n, p) ∈ l) (hq : (n, q) ∈ l) : p = q := by
  have h1 := alookup_eq_of_mem_nodup hnd hp
  have h2 := alookup_eq_of_mem_nodup hnd hq
  rw [h1] at h2
  injection h2

/-- C2 (amended): the wire schema lists as required exactly the declared
names whose shape is required, omitting the key entirely when none is; the
compiled validator rejects an input object missing a required property that
declares no default (a declared default fills the absent field instead),
and an input object missing a non-required property is never rejected for
that absence. -/
theorem required_propagation (params : List (String × ParameterConfig)) :
    (requiredNames params = (params.filter (fun np => np.2.required)).map Prod.fst) ∧
    (∃ fields, convertParametersToJsonSchema params = .objV fields ∧
      alookup fields "required" =
        (if requiredNames params = [] then none
         else some (.arrV ((requiredNames params).map .strV)))) ∧
    (∀ fields n p, (n, p) ∈ params → p.required = true → p.default = none →
      alookup fields n = none →
      zodAccepts (.zObject (convertParametersToZodSchema params)) (.objV fields) = false) ∧
    (∀ fields n p, (params.map Prod.fst).Nodup → (n, p) ∈ params → p.required = false →
      alookup fields n = none →
      (∀ np ∈ params, np.1 ≠ n →
        (match alookup fields np.1 with
         | some v => zodAccepts (if np.2.required then convertParameterToZodSchema np.2
                                 else .zOptional (convertParameterToZodSchema np.2)) v
         | none => acceptsMissing (if np.2.required then convertParameterToZodSchema np.2
                                 else .zOptional (convertParameterToZodSchema np.2))) = true) →
      zodAccepts (.zObject (convertParametersToZodSchema params)) (.objV fields) = true) := by
  refine ⟨requiredNames_eq_filter params, ?_, ?_, ?_⟩
  · refine ⟨_, rfl, ?_⟩
    by_cases hreq : requiredNames params = []
    · rw [if_pos hreq, hreq]
      simp [alookup]
    · rw [if_neg hreq]
      have : (requiredNames params).isEmpty = false := by
        cases hre : requiredNames params with
        | nil => exact absurd hre hreq
        | cons a l => rfl
      rw [this]
      simp [alookup]
  · intro fields n p hmem hreq hdflt hnone
    simp only [zodAccepts, propsAccept_eq_all]
    rw [List.all_eq_false]
    refine ⟨(n, convertParameterToZodSchema p), ?_, ?_⟩
    · rw [convertParametersToZodSchema_eq_map]
      refine List.mem_map.2 ⟨(n, p), hmem, ?_⟩
      simp [hreq]
    · simp only [hnone]
      rw [acceptsMissing_convert p hdflt]
      simp
  · intro fields n p hnd hmem hreq hnone hothers
    simp only [zodAccepts, propsAccept_eq_all]
    rw [List.all_eq_true]
    intro x hx
    rw [convertParametersToZodSchema_eq_map] at hx
    rcases List.mem_map.1 hx with ⟨np, hnp, rfl⟩
    by_cases hn : np.1 = n
    · have hp2 : np.2 = p := by
        obtain ⟨n1, p1⟩ := np
        simp only at hn
        subst hn
        exact mem_keyNodup_unique hnd hnp hmem
      simp only [hn, hp2, hnone, hreq]
      rfl
    · exact hothers np hnp hn

/-- C2 counterexample: a required parameter that also declares a default is
not rejected when absent; the compiled validator substitutes the default,
so the input object missing the required property "a" is accepted. -/
theorem required_default_accepted_cex :
    (ParameterConfig.mk (some "string") none true (some (.strV "x")) none none none).required
      = true ∧
    zodAccepts (.zObject (convertParametersToZodSchema
      [("a", .mk (some "string") none true (some (.strV "x")) none none none)])) (.objV [])
      = true :=
  ⟨rfl, rfl⟩

/-- Witness for C2 at the spec example of one required and one optional
string parameter: the wire required list is exactly ["a"], the validator
rejects input missing "a" and accepts input missing "b". -/
theorem required_propagation_witness :
    requiredNames [("a", ParameterConfig.mk (some "string") none true none none none none),
                   ("b", ParameterConfig.mk (some "string") none false none none none none)]
      = ["a"] ∧
    zodAccepts (.zObject (convertParametersToZodSchema
      [("a", ParameterConfig.mk (some "string") none true none none none none),
       ("b", ParameterConfig.mk (some "string") none false none none none none)]))
      (.objV [("b", .strV "y")]) = false ∧
    zodAccepts (.zObject (convertParametersToZodSchema
      [("a", ParameterConfig.mk (some "string") none true none none none none),
       ("b", ParameterConfig.mk (some "string") none false none none none none)]))
      (.objV [("a", .strV "x")]) = true := by
  have h := required_propagation
    [("a", ParameterConfig.mk (some "string") none true none none none none),
     ("b", ParameterConfig.mk (some "string") none false none none none none)]
  refine ⟨by simpa using h.1, ?_, ?_⟩
  · exact h.2.2.1 [("b", .strV "y")] "a"
      (ParameterConfig.mk (some "string") none true none none none none)
      (by simp) rfl rfl rfl
  · refine h.2.2.2 [("a", .strV "x")] "b"
      (ParameterConfig.mk (some "string") none false none none none none)
      (by simp) (by simp) rfl rfl ?_
    intro np hnp hne
    rcases List.mem_cons.1 hnp with rfl | hnp2
    · rfl
    · rcases List.mem_cons.1 hnp2 with rfl | hnp3
      · exact absurd rfl hne
      · cases hnp3

/-- C3: merging two declaration sets treats every key of the overlay by
shallow record merge when the key exists in the base (each overlay field
overwriting the base field except tools, which goes through mergeTools) and
by direct insertion otherwise; base-only keys are retained unchanged. -/
theorem merge_configs_lookup (target source : DevToolsConfig)
    (hs : (source.map Prod.fst).Nodup) (k : String) :
    (alookup (mergeConfigs target source) k =
      match alookup target k, alookup source k with
      | some b, some o => some (mergePromptConfig b o)
      | some b, none => some b
      | none, some o => some o
      | none, none => none) ∧
    (∀ b o : PromptConfig,
      (mergePromptConfig b o).tools = mergeTools b.tools o.tools ∧
      (mergePromptConfig b o).prompt = (o.prompt <|> b.prompt) ∧
      (mergePromptConfig b o).context = (o.context <|> b.context) ∧
      (mergePromptConfig b o).toolMode = (o.toolMode <|> b.toolMode) ∧
      (mergePromptConfig b o).description = (o.description <|> b.description) ∧
      (mergePromptConfig b o).disabled = (o.disabled <|> b.disabled) ∧
      (mergePromptConfig b o).name = (o.name <|> b.name) ∧
      (mergePromptConfig b o).parameters = (o.parameters <|> b.parameters)) := by
  constructor
  · rw [mergeConfigs, alookup_mergeAssoc _ _ _ hs]
    cases alookup target k <;> cases alookup source k <;> rfl
  · intro b o
    exact ⟨rfl, rfl, rfl, rfl, rfl, rfl, rfl, rfl⟩

/-- Witness for C3 on a two-key overlay: the key shared with the base is
record-merged with overlay fields winning but the tools merged, the key
only in the overlay is inserted, and the key only in the base is kept. -/
theorem merge_configs_lookup_witness :
    (alookup (mergeConfigs
        [("t", { prompt := some "p1", tools := some (.str "a") }),
         ("keep", { context := some "c" })]
        [("t", { description := some "d", tools := some (.str "b") }),
         ("u", { prompt := some "q" })]) "t" =
      some { prompt := some "p1", description := some "d",
             tools := some (.str "a, b") }) ∧
    (alookup (mergeConfigs
        [("t", { prompt := some "p1", tools := some (.str "a") }),
         ("keep", { context := some "c" })]
        [("t", { description := some "d", tools := some (.str "b") }),
         ("u", { prompt := some "q" })]) "u" = some { prompt := some "q" }) ∧
    (alookup (mergeConfigs
        [("t", { prompt := some "p1", tools := some (.str "a") }),
         ("keep", { context := some "c" })]
        [("t", { description := some "d", tools := some (.str "b") }),
         ("u", { prompt := some "q" })]) "keep" = some { context := some "c" }) := by
  have hnd : ((([("t", ({ description := some "d", tools := some (.str "b") } : PromptConfig)),
      ("u", { prompt := some "q" })]).map Prod.fst)).Nodup := by decide
  refine ⟨?_, ?_, ?_⟩
  · exact (merge_configs_lookup _ _ hnd "t").1
  · exact (merge_configs_lookup _ _ hnd "u").1
  · exact (merge_configs_lookup _ _ hnd "keep").1

/-- C4 counterexample: merging the string form "x" with an object form whose
record for x sets only the optional flag. The source normalizes the string
side to the empty string value, not to the record with empty description
and prompt, so the overlay record replaces it wholesale and the result
lacks the description and prompt fields the claim predicts. -/
theorem mergeTools_string_normalization_cex :
    mergeTools (some (.str "x")) (some (.obj [("x", .cfg { optional := some true })])) =
      some (.obj [("x", ToolEntry.cfg { optional := some true })]) ∧
    mergeToolsSpec (some (.str "x")) (some (.obj [("x", .cfg { optional := some true })])) =
      some (.obj [("x", ToolEntry.cfg
        { description := some "", prompt := some "", optional := some true })]) ∧
    ToolEntry.cfg { optional := some true } ≠
      ToolEntry.cfg { description := some "", prompt := some "", optional := some true } := by
  refine ⟨rfl, rfl, ?_⟩
  simp

/-- C4 (amended): when at least one side is in object form and both sides
are truthy (a falsy empty-string side instead makes the source return the
other side unchanged), mergeTools normalizes a string-form side into a
mapping from each trimmed name to the empty string (not to a record), then
merges per key: keys in both sides deep-merge field-by-field with the
overlay field winning only when both values are records, otherwise the
overlay value replaces the base value; keys on one side only are taken
unchanged. -/
theorem mergeTools_object_merge (t1 t2 : Tools)
    (h : (∃ es, t1 = Tools.obj es) ∨ (∃ es, t2 = Tools.obj es))
    (ht1 : toolsTruthy (some t1) = true) (ht2 : toolsTruthy (some t2) = true)
    (hnd : ((toolsToObject t2).map Prod.fst).Nodup) :
    (mergeTools (some t1) (some t2) =
      some (.obj (mergeAssoc mergeToolEntry (toolsToObject t1) (toolsToObject t2)))) ∧
    (∀ es, mergeTools (some (.str "")) (some (.obj es)) = some (.obj es)) ∧
    (∀ es, mergeTools (some (.obj es)) (some (.str "")) = some (.obj es)) ∧
    (∀ k, alookup (mergeAssoc mergeToolEntry (toolsToObject t1) (toolsToObject t2)) k =
      combineOpt mergeToolEntry (alookup (toolsToObject t1) k) (alookup (toolsToObject t2) k)) ∧
    (∀ s, toolsToObject (Tools.str s) = (dedupFirst (toks s)).map (fun t => (t, .str ""))) ∧
    (∀ b o : ToolConfig, mergeToolEntry (.cfg b) (.cfg o) = .cfg (spreadToolConfig b o)) ∧
    (∀ b o : ToolConfig, spreadToolConfig b o =
      { name := o.name <|> b.name, description := o.description <|> b.description,
        prompt := o.prompt <|> b.prompt, optional := o.optional <|> b.optional,
        parameters := o.parameters <|> b.parameters }) ∧
    (∀ e1 s2, mergeToolEntry e1 (.str s2) = .str s2) ∧
    (∀ s1 c2, mergeToolEntry (.str s1) (.cfg c2) = .cfg c2) := by
  refine ⟨?_, fun es => rfl, fun es => rfl, fun k => alookup_mergeAssoc _ _ _ hnd k,
    fun s => rfl, fun b o => rfl, fun b o => rfl, fun e1 s2 => ?_, fun s1 c2 => rfl⟩
  · cases t1 with
    | str s1 =>
      cases t2 with
      | str s2 =>
        exfalso
        rcases h with ⟨es, hes⟩ | ⟨es, hes⟩ <;> cases hes
      | obj es2 => simp [mergeTools, ht1, ht2]
    | obj es1 => cases t2 <;> simp [mergeTools, ht1, ht2]
  · cases e1 <;> rfl

/-- Witness for C4 amended on the counterexample inputs: the merged mapping
binds x to the overlay record unchanged, since the normalized base value is
a string, not a record. -/
theorem mergeTools_object_merge_witness :
    mergeTools (some (.str "x")) (some (.obj [("x", .cfg { optional := some true })])) =
      some (.obj [("x", ToolEntry.cfg { optional := some true })]) := by
  have h := mergeTools_object_merge (.str "x") (.obj [("x", .cfg { optional := some true })])
    (Or.inr ⟨_, rfl⟩) rfl rfl (by decide)
  exact h.1

/-- C9 counterexample: an empty-string side is falsy in the guards of
mergeTools, so the source treats it as absent and returns the other side
unchanged rather than parsing and unioning it: merging "" with "b,c"
yields "b,c", while the claimed parse-union-rejoin algorithm yields
", b, c" (the empty token joined in). -/
theorem mergeTools_empty_string_cex :
    mergeTools (some (.str "")) (some (.str "b,c")) = some (.str "b,c") ∧
    String.intercalate ", " (dedupFirst (toks "" ++ toks "b,c")) = ", b, c" ∧
    ("b,c" : String) ≠ ", b, c" :=
  ⟨rfl, by decide, by decide⟩

/-- C9 (amended): for two non-empty comma-separated tools strings,
mergeTools parses both into trimmed names, unions them with
first-occurrence de-duplication and re-joins them with a comma and space;
an empty-string side is falsy and the other side is returned unchanged.
Membership in the merged token list is exactly membership in either side,
hence symmetric in the argument order, as on the claim example "a,b" with
"b,c". -/
theorem mergeTools_string_union (s1 s2 : String) (h1 : s1 ≠ "") (h2 : s2 ≠ "") :
    (mergeTools (some (.str s1)) (some (.str s2)) =
      some (.str (String.intercalate ", " (dedupFirst (toks s1 ++ toks s2))))) ∧
    (mergeTools (some (.str "")) (some (.str s2)) = some (.str s2)) ∧
    (mergeTools (some (.str s1)) (some (.str "")) = some (.str s1)) ∧
    (∀ x, x ∈ dedupFirst (toks s1 ++ toks s2) ↔ x ∈ toks s1 ∨ x ∈ toks s2) ∧
    (∀ x, x ∈ dedupFirst (toks s1 ++ toks s2) ↔ x ∈ dedupFirst (toks s2 ++ toks s1)) ∧
    (dedupFirst (toks "a,b" ++ toks "b,c") = ["a", "b", "c"]) ∧
    (dedupFirst (toks "b,c" ++ toks "a,b") = ["b", "c", "a"]) := by
  have ht1 : toolsTruthy (some (.str s1)) = true := by simp [toolsTruthy, h1]
  have ht2 : toolsTruthy (some (.str s2)) = true := by simp [toolsTruthy, h2]
  refine ⟨?_, ?_, ?_, ?_, ?_, by decide, by decide⟩
  · simp [mergeTools, ht1, ht2]
  · simp [mergeTools, toolsTruthy, ht2]
    exact h2
  · simp [mergeTools, toolsTruthy, ht1]
    exact ⟨h1, fun h => absurd h h1⟩
  · intro x
    rw [mem_dedupFirst]
    exact List.mem_append
  · intro x
    rw [mem_dedupFirst, mem_dedupFirst, List.mem_append, List.mem_append]
    exact or_comm

/-- Witness for C9 amended at the claim example: merging "a,b" with "b,c"
yields the comma-space join of the union token set. -/
theorem mergeTools_string_union_witness :
    mergeTools (some (.str "a,b")) (some (.str "b,c")) = some (.str "a, b, c") := by
  have h := (mergeTools_string_union "a,b" "b,c" (by decide) (by decide)).1
  exact h

/-- C8: with a non-empty tools list, appendFormattedTools appends the
"## Available Tools" header, the mode intro, one line per entry and the
trailing instruction; each line joins name, description and prompt with a
colon after the name when at least one of them is present and the dash
separator " - " between them when both are, and carries the " (Optional)"
suffix exactly when the optional flag is set. An empty tools list returns
the base text unchanged. -/
theorem append_formatted_tools_shape (baseText : String) (toolsList : List ToolItem)
    (toolMode : Option String) :
    (toolsList = [] → appendFormattedTools baseText toolsList toolMode = baseText) ∧
    (toolsList ≠ [] →
      appendFormattedTools baseText toolsList toolMode =
        (baseText ++ "\n\n## Available Tools\n") ++
          (if toolMode == some "sequential" then sequentialIntro ++ sequentialLines 0 toolsList
           else situationalIntro ++ situationalLines toolsList) ++ toolsTrailer) ∧
    (∀ tool : ToolItem,
      toolLineBody tool =
        (match truthy tool.description, truthy tool.prompt with
         | true, true => ": " ++ tool.description.getD "" ++ " - " ++ tool.prompt.getD ""
         | true, false => ": " ++ tool.description.getD ""
         | false, true => ": " ++ tool.prompt.getD ""
         | false, false => "") ++
        (if tool.optional then " (Optional)" else "") ++ "\n") ∧
    (∀ index tool rest, sequentialLines index (tool :: rest) =
      toString (index + 1) ++ ". " ++ tool.name ++ toolLineBody tool ++
        sequentialLines (index + 1) rest) ∧
    (∀ tool rest, situationalLines (tool :: rest) =
      "- " ++ tool.name ++ toolLineBody tool ++ situationalLines rest) := by
  refine ⟨?_, ?_, ?_, fun index tool rest => rfl, fun tool rest => rfl⟩
  · rintro rfl
    rfl
  · intro hne
    cases toolsList with
    | nil => exact absurd rfl hne
    | cons t ts => rfl
  · intro tool
    cases htd : truthy tool.description <;> cases htp : truthy tool.prompt <;>
      simp [toolLineBody, htd, htp, String.append_assoc]

/-- Witness for C8: the empty list leaves the base unchanged, and a
singleton optional tool with both description and prompt renders with the
header, the numbered line and the dash separator. -/
theorem append_formatted_tools_shape_witness :
    appendFormattedTools "B" [] (some "sequential") = "B" ∧
    appendFormattedTools "B" [⟨"t", some "d", some "p", true⟩] (some "sequential") =
      ("B" ++ "\n\n## Available Tools\n") ++
        (sequentialIntro ++ sequentialLines 0 [⟨"t", some "d", some "p", true⟩]) ++
        toolsTrailer ∧
    toolLineBody ⟨"t", some "d", some "p", true⟩ = ": d - p (Optional)\n" := by
  refine ⟨(append_formatted_tools_shape "B" [] (some "sequential")).1 rfl, ?_, ?_⟩
  · exact (append_formatted_tools_shape "B" [⟨"t", some "d", some "p", true⟩]
      (some "sequential")).2.1 (by simp)
  · have h := (append_formatted_tools_shape "B" [⟨"t", some "d", some "p", true⟩]
      (some "sequential")).2.2.1 ⟨"t", some "d", some "p", true⟩
    rw [h]
    rfl

theorem takeWhile_append_braces (l : List Char) (h : ∀ c ∈ l, c ≠ '}') (ys : List Char) :
    (l ++ '}' :: ys).takeWhile (fun c => c ≠ '}') = l := by
  induction l with
  | nil => simp [List.takeWhile_cons]
  | cons c cs ih =>
    have hc : decide (c ≠ '}') = true := decide_eq_true (h c (List.mem_cons.2 (Or.inl rfl)))
    rw [List.cons_append, List.takeWhile_cons]
    simp only [hc, if_true]
    rw [ih (fun d hd => h d (List.mem_cons.2 (Or.inr hd)))]

set_option maxRecDepth 8000 in
/-- C7: a placeholder token whose inner text is non-empty and free of
closing braces is substituted with the stringified argument value and its
trimmed name recorded as used when the name is bound, and is left verbatim
with nothing recorded when it is not; tokens are processed independently
across a template, unresolved ones passing through, as on the mixed
concrete template. -/
theorem process_template_token (name : String) (args : List (String × JsonValue))
    (h1 : name.data ≠ []) (h2 : ∀ c ∈ name.data, c ≠ '}') :
    (processTemplate ("\x7b\x7b" ++ name ++ "\x7d\x7d") args =
      match alookup args (jsTrim name) with
      | some v => (jsToString v, [jsTrim name])
      | none => ("\x7b\x7b" ++ name ++ "\x7d\x7d", [])) ∧
    processTemplate "a \x7b\x7bx\x7d\x7d b \x7b\x7b y \x7d\x7d c \x7b\x7bz\x7d\x7d" [("x", .numV 5), ("y", .strV "w")] =
      ("a 5 b w c \x7b\x7bz\x7d\x7d", ["x", "y"]) := by
  constructor
  · by_cases hargs : args = []
    · subst hargs
      simp [processTemplate, alookup]
    · have hne : args.isEmpty = false := by
        cases args with
        | nil => exact absurd rfl hargs
        | cons a l => rfl
      have hdata : ("\x7b\x7b" ++ name ++ "\x7d\x7d").data = '{' :: '{' :: (name.data ++ ['}', '}']) := by
        simp [String.data_append]
      have hlen : ('{' :: '{' :: (name.data ++ ['}', '}'])).length =
          (name.data.length + 3) + 1 := by
        simp [List.length_append]
      simp only [processTemplate, hne, Bool.false_eq_true, if_false, hdata, hlen]
      simp only [processChars]
      rw [takeWhile_append_braces name.data h2 ['}'], List.drop_left]
      have hie : name.data.isEmpty = false := by
        cases hnd : name.data with
        | nil => exact absurd hnd h1
        | cons a l => rfl
      simp only [hie, closesBraces, Bool.not_false, Bool.and_self, if_true]
      have hmk : String.mk name.data = name := rfl
      have htrim : String.mk (trimChars name.data) = jsTrim name := rfl
      simp only [List.drop_succ_cons, List.drop_zero, List.drop_nil]
      simp only [processChars, htrim, hmk]
      cases halk : alookup args (jsTrim name) with
      | some v => simp [dedupFirst, dedupFirstAux]
      | none => simp [dedupFirst, dedupFirstAux]
  · decide

/-- Witness for C7 at the spec examples: the unbound token is returned
verbatim with an empty used set, the bound token is substituted by the
stringified value 5 with the name recorded. -/
theorem process_template_token_witness :
    processTemplate "\x7b\x7bx\x7d\x7d" [] = ("\x7b\x7bx\x7d\x7d", []) ∧
    processTemplate "\x7b\x7bx\x7d\x7d" [("x", .numV 5)] = ("5", ["x"]) := by
  have ha := (process_template_token "x" [] (by decide) (by decide)).1
  have hb := (process_template_token "x" [("x", .numV 5)] (by decide) (by decide)).1
  exact ⟨ha, hb⟩


theorem ParameterConfig.type_mk (t : Option String) (d : Option String) (r : Bool)
    (df : Option JsonValue) (e : Option (List EnumValue)) (it : Option ParameterConfig)
    (pr : Option (List (String × ParameterConfig))) :
    (ParameterConfig.mk t d r df e it pr).type = t := rfl

theorem typeOk_false_of_falsy (o : Option String) (h : typeFalsy o = true) :
    typeOk o = false := by
  cases o with
  | none => rfl
  | some s =>
    have hs : s = "" := by simpa [typeFalsy] using h
    subst hs
    rfl

theorem typeOk_eq_contains (o : Option String) (h : typeFalsy o = false) :
    typeOk o = validTypes.contains (o.getD "") := by
  cases o with
  | none => simp [typeFalsy] at h
  | some s => rfl

mutual

theorem validateNestedParameter_none : ∀ (p : ParameterConfig) (path : String),
    validateNestedParameter p path = none ↔ wfBody p = true
  | .mk t d r df e none none, path => by
    by_cases h1 : t = some "enum"
    · subst h1
      by_cases hm : enumMissingOrEmpty e = true <;>
        simp [validateNestedParameter, wfBody, hm]
    · simp [validateNestedParameter, wfBody, h1]
  | .mk t d r df e none (some props), path => by
    have hw := validateNestedProps_none props path
    by_cases h1 : t = some "enum"
    · subst h1
      have h2 : ¬(some "enum" : Option String) = some "object" := by decide
      by_cases hm : enumMissingOrEmpty e = true <;>
        simp [validateNestedParameter, wfBody, hm, h2]
    · by_cases h2 : t = some "object"
      · subst h2
        cases hvp : validateNestedProps props path with
        | some err =>
          rw [hvp] at hw
          have hwb : wfProps props = false := by
            cases hb : wfProps props with
            | false => rfl
            | true => exact absurd (hw.2 hb) (by simp)
          simp [validateNestedParameter, wfBody, h1, hvp, hwb]
        | none =>
          rw [hvp] at hw
          simp [validateNestedParameter, wfBody, h1, hvp, hw.1 rfl]
      · simp [validateNestedParameter, wfBody, h1, h2]
  | .mk t d r df e (some i) none, path => by
    by_cases h1 : t = some "enum"
    · subst h1
      have h3 : ¬(some "enum" : Option String) = some "array" := by decide
      by_cases hm : enumMissingOrEmpty e = true <;>
        simp [validateNestedParameter, wfBody, hm, h3]
    · by_cases h3 : t = some "array"
      · subst h3
        by_cases hf : typeFalsy i.type = true
        · simp [validateNestedParameter, wfBody, h1, hf, typeOk_false_of_falsy _ hf]
        · have hf' : typeFalsy i.type = false := by simpa using hf
          by_cases hv : i.type.getD "" ∈ validTypes
          · have hok : typeOk i.type = true := by
              rw [typeOk_eq_contains _ hf']
              exact List.elem_iff.2 hv
            have hiff := validateNestedParameter_none i (path ++ " items")
            simp [validateNestedParameter, wfBody, h1, hf', hv, hok, hiff]
          · have hok : typeOk i.type = false := by
              rw [typeOk_eq_contains _ hf']
              simpa using fun hx => hv (List.elem_iff.1 hx)
            simp [validateNestedParameter, wfBody, h1, hf', hv, hok]
      · simp [validateNestedParameter, wfBody, h1, h3]
  | .mk t d r df e (some i) (some props), path => by
    have hw := validateNestedProps_none props path
    by_cases h1 : t = some "enum"
    · subst h1
      have h2 : ¬(some "enum" : Option String) = some "object" := by decide
      have h3 : ¬(some "enum" : Option String) = some "array" := by decide
      by_cases hm : enumMissingOrEmpty e = true <;>
        simp [validateNestedParameter, wfBody, hm, h2, h3]
    · by_cases h2 : t = some "object"
      · subst h2
        have h3 : ¬(some "object" : Option String) = some "array" := by decide
        cases hvp : validateNestedProps props path with
        | some err =>
          rw [hvp] at hw
          have hwb : wfProps props = false := by
            cases hb : wfProps props with
            | false => rfl
            | true => exact absurd (hw.2 hb) (by simp)
          simp [validateNestedParameter, wfBody, h1, h3, hvp, hwb]
        | none =>
          rw [hvp] at hw
          simp [validateNestedParameter, wfBody, h1, h3, hvp, hw.1 rfl]
      · by_cases h3 : t = some "array"
        · subst h3
          by_cases hf : typeFalsy i.type = true
          · simp [validateNestedParameter, wfBody, h1, h2, hf, typeOk_false_of_falsy _ hf]
          · have hf' : typeFalsy i.type = false := by simpa using hf
            by_cases hv : i.type.getD "" ∈ validTypes
            · have hok : typeOk i.type = true := by
                rw [typeOk_eq_contains _ hf']
                exact List.elem_iff.2 hv
              have hiff := validateNestedParameter_none i (path ++ " items")
              simp [validateNestedParameter, wfBody, h1, h2, hf', hv, hok, hiff]
            · have hok : typeOk i.type = false := by
                rw [typeOk_eq_contains _ hf']
                simpa using fun hx => hv (List.elem_iff.1 hx)
              simp [validateNestedParameter, wfBody, h1, h2, hf', hv, hok]
        · simp [validateNestedParameter, wfBody, h1, h2, h3]

theorem validateNestedProps_none : ∀ (props : List (String × ParameterConfig)) (path : String),
    validateNestedProps props path = none ↔ wfProps props = true
  | [], path => by simp [validateNestedProps, wfProps]
  | (n, p) :: rest, path => by
    by_cases hf : typeFalsy p.type = true
    · simp [validateNestedProps, wfProps, hf, typeOk_false_of_falsy _ hf]
    · have hf' : typeFalsy p.type = false := by simpa using hf
      by_cases hv : p.type.getD "" ∈ validTypes
      · have hok : typeOk p.type = true := by
          rw [typeOk_eq_contains _ hf']
          exact List.elem_iff.2 hv
        have hw := validateNestedParameter_none p (path ++ "." ++ n)
        have hr := validateNestedProps_none rest path
        cases hnp : validateNestedParameter p (path ++ "." ++ n) with
        | some err =>
          rw [hnp] at hw
          have hwb : wfBody p = false := by
            cases hb : wfBody p with
            | false => rfl
            | true => exact absurd (hw.2 hb) (by simp)
          simp [validateNestedProps, wfProps, hf', hv, hnp, hwb]
        | none =>
          rw [hnp] at hw
          simp [validateNestedProps, wfProps, hf', hv, hnp, hok, hw.1 rfl, hr]
      · have hok : typeOk p.type = false := by
          rw [typeOk_eq_contains _ hf']
          simpa using fun hx => hv (List.elem_iff.1 hx)
        simp [validateNestedProps, wfProps, hf', hv, hok]

theorem validateParams_none : ∀ (params : List (String × ParameterConfig)),
    validateParams params = none ↔ params.all (fun np => wfParam np.2) = true
  | [] => by simp [validateParams]
  | (n, .mk t d r df e none none) :: rest => by
    have hrest := validateParams_none rest
    by_cases hf : typeFalsy t = true
    · simp [validateParams, wfParam, ParameterConfig.type_mk, hf, typeOk_false_of_falsy _ hf]
    · have hf' : typeFalsy t = false := by simpa using hf
      by_cases hv : t.getD "" ∈ validTypes
      · have hok : typeOk t = true := by
          rw [typeOk_eq_contains _ hf']
          exact List.elem_iff.2 hv
        by_cases h1 : t = some "enum"
        · subst h1
          have hvt : ("enum" : String) ∈ validTypes := by decide
          by_cases hm : enumMissingOrEmpty e = true <;>
            simp [validateParams, wfParam, wfBody, ParameterConfig.type_mk, hf', hvt, hm,
              hok, hrest]
        · simp [validateParams, wfParam, wfBody, ParameterConfig.type_mk, hf', hv, h1,
            hok, hrest]
      · have hok : typeOk t = false := by
          rw [typeOk_eq_contains _ hf']
          simpa using fun hx => hv (List.elem_iff.1 hx)
        simp [validateParams, wfParam, ParameterConfig.type_mk, hf', hv, hok]
  | (n, .mk t d r df e none (some props)) :: rest => by
    have hrest := validateParams_none rest
    by_cases hf : typeFalsy t = true
    · simp [validateParams, wfParam, ParameterConfig.type_mk, hf, typeOk_false_of_falsy _ hf]
    · have hf' : typeFalsy t = false := by simpa using hf
      by_cases hv : t.getD "" ∈ validTypes
      · have hok : typeOk t = true := by
          rw [typeOk_eq_contains _ hf']
          exact List.elem_iff.2 hv
        by_cases h1 : t = some "enum"
        · subst h1
          have hvt : ("enum" : String) ∈ validTypes := by decide
          have h2 : ¬(some "enum" : Option String) = some "object" := by decide
          by_cases hm : enumMissingOrEmpty e = true <;>
            simp [validateParams, wfParam, wfBody, ParameterConfig.type_mk, hf', hvt, hm,
              h2, hok, hrest]
        · by_cases h2 : t = some "object"
          · subst h2
            have hvt : ("object" : String) ∈ validTypes := by decide
            have hw := validateNestedProps_none props n
            cases hvp : validateNestedProps props n with
            | some err =>
              rw [hvp] at hw
              have hwb : wfProps props = false := by
                cases hb : wfProps props with
                | false => rfl
                | true => exact absurd (hw.2 hb) (by simp)
              simp [validateParams, wfParam, wfBody, ParameterConfig.type_mk, hf', hvt,
                h1, hvp, hwb]
            | none =>
              rw [hvp] at hw
              simp [validateParams, wfParam, wfBody, ParameterConfig.type_mk, hf', hvt,
                h1, hvp, hok, hw.1 rfl, hrest]
          · simp [validateParams, wfParam, wfBody, ParameterConfig.type_mk, hf', hv, h1,
              h2, hok, hrest]
      · have hok : typeOk t = false := by
          rw [typeOk_eq_contains _ hf']
          simpa using fun hx => hv (List.elem_iff.1 hx)
        simp [validateParams, wfParam, ParameterConfig.type_mk, hf', hv, hok]
  | (n, .mk t d r df e (some i) none) :: rest => by
    have hrest := validateParams_none rest
    by_cases hf : typeFalsy t = true
    · simp [validateParams, wfParam, ParameterConfig.type_mk, hf, typeOk_false_of_falsy _ hf]
    · have hf' : typeFalsy t = false := by simpa using hf
      by_cases hv : t.getD "" ∈ validTypes
      · have hok : typeOk t = true := by
          rw [typeOk_eq_contains _ hf']
          exact List.elem_iff.2 hv
        by_cases h1 : t = some "enum"
        · subst h1
          have hvt : ("enum" : String) ∈ validTypes := by decide
          have h3 : ¬(some "enum" : Option String) = some "array" := by decide
          by_cases hm : enumMissingOrEmpty e = true <;>
            simp [validateParams, wfParam, wfBody, ParameterConfig.type_mk, hf', hvt, hm,
              h3, hok, hrest]
        · by_cases h3 : t = some "array"
          · subst h3
            have hvt : ("array" : String) ∈ validTypes := by decide
            by_cases hif : typeFalsy i.type = true
            · simp [validateParams, wfParam, wfBody, ParameterConfig.type_mk, hf', hvt,
                h1, hif, typeOk_false_of_falsy _ hif]
            · have hif' : typeFalsy i.type = false := by simpa using hif
              by_cases hiv : i.type.getD "" ∈ validTypes
              · have hiok : typeOk i.type = true := by
                  rw [typeOk_eq_contains _ hif']
                  exact List.elem_iff.2 hiv
                have hw := validateNestedParameter_none i (n ++ " items")
                cases hni : validateNestedParameter i (n ++ " items") with
                | some err =>
                  rw [hni] at hw
                  have hwb : wfBody i = false := by
                    cases hb : wfBody i with
                    | false => rfl
                    | true => exact absurd (hw.2 hb) (by simp)
                  simp [validateParams, wfParam, wfBody, ParameterConfig.type_mk, hf',
                    hvt, h1, hif', hiv, hni, hwb]
                | none =>
                  rw [hni] at hw
                  simp [validateParams, wfParam, wfBody, ParameterConfig.type_mk, hf',
                    hvt, h1, hif', hiv, hni, hiok, hok, hw.1 rfl, hrest]
              · have hiok : typeOk i.type = false := by
                  rw [typeOk_eq_contains _ hif']
                  simpa using fun hx => hiv (List.elem_iff.1 hx)
                simp [validateParams, wfParam, wfBody, ParameterConfig.type_mk, hf', hvt,
                  h1, hif', hiv, hiok]
          · simp [validateParams, wfParam, wfBody, ParameterConfig.type_mk, hf', hv, h1,
              h3, hok, hrest]
      · have hok : typeOk t = false := by
          rw [typeOk_eq_contains _ hf']
          simpa using fun hx => hv (List.elem_iff.1 hx)
        simp [validateParams, wfParam, ParameterConfig.type_mk, hf', hv, hok]
  | (n, .mk t d r df e (some i) (some props)) :: rest => by
    have hrest := validateParams_none rest
    by_cases hf : typeFalsy t = true
    · simp [validateParams, wfParam, ParameterConfig.type_mk, hf, typeOk_false_of_falsy _ hf]
    · have hf' : typeFalsy t = false := by simpa using hf
      by_cases hv : t.getD "" ∈ validTypes
      · have hok : typeOk t = true := by
          rw [typeOk_eq_contains _ hf']
          exact List.elem_iff.2 hv
        by_cases h1 : t = some "enum"
        · subst h1
          have hvt : ("enum" : String) ∈ validTypes := by decide
          have h2 : ¬(some "enum" : Option String) = some "object" := by decide
          have h3 : ¬(some "enum" : Option String) = some "array" := by decide
          by_cases hm : enumMissingOrEmpty e = true <;>
            simp [validateParams, wfParam, wfBody, ParameterConfig.type_mk, hf', hvt, hm,
              h2, h3, hok, hrest]
        · by_cases h2 : t = some "object"
          · subst h2
            have hvt : ("object" : String) ∈ validTypes := by decide
            have h3 : ¬(some "object" : Option String) = some "array" := by decide
            have hw := validateNestedProps_none props n
            cases hvp : validateNestedProps props n with
            | some err =>
              rw [hvp] at hw
              have hwb : wfProps props = false := by
                cases hb : wfProps props with
                | false => rfl
                | true => exact absurd (hw.2 hb) (by simp)
              simp [validateParams, wfParam, wfBody, ParameterConfig.type_mk, hf', hvt,
                h1, h3, hvp, hwb]
            | none =>
              rw [hvp] at hw
              simp [validateParams, wfParam, wfBody, ParameterConfig.type_mk, hf', hvt,
                h1, h3, hvp, hok, hw.1 rfl, hrest]
          · by_cases h3 : t = some "array"
            · subst h3
              have hvt : ("array" : String) ∈ validTypes := by decide
              by_cases hif : typeFalsy i.type = true
              · simp [validateParams, wfParam, wfBody, ParameterConfig.type_mk, hf', hvt,
                  h1, h2, hif, typeOk_false_of_falsy _ hif]
              · have hif' : typeFalsy i.type = false := by simpa using hif
                by_cases hiv : i.type.getD "" ∈ validTypes
                · have hiok : typeOk i.type = true := by
                    rw [typeOk_eq_contains _ hif']
                    exact List.elem_iff.2 hiv
                  have hw := validateNestedParameter_none i (n ++ " items")
                  cases hni : validateNestedParameter i (n ++ " items") with
                  | some err =>
                    rw [hni] at hw
                    have hwb : wfBody i = false := by
                      cases hb : wfBody i with
                      | false => rfl
                      | true => exact absurd (hw.2 hb) (by simp)
                    simp [validateParams, wfParam, wfBody, ParameterConfig.type_mk, hf',
                      hvt, h1, h2, hif', hiv, hni, hwb]
                  | none =>
                    rw [hni] at hw
                    simp [validateParams, wfParam, wfBody, ParameterConfig.type_mk, hf',
                      hvt, h1, h2, hif', hiv, hni, hiok, hok, hw.1 rfl, hrest]
                · have hiok : typeOk i.type = false := by
                    rw [typeOk_eq_contains _ hif']
                    simpa using fun hx => hiv (List.elem_iff.1 hx)
                  simp [validateParams, wfParam, wfBody, ParameterConfig.type_mk, hf',
                    hvt, h1, h2, hif', hiv, hiok]
            · simp [validateParams, wfParam, wfBody, ParameterConfig.type_mk, hf', hv,
                h1, h2, h3, hok, hrest]
      · have hok : typeOk t = false := by
          rw [typeOk_eq_contains _ hf']
          simpa using fun hx => hv (List.elem_iff.1 hx)
        simp [validateParams, wfParam, ParameterConfig.type_mk, hf', hv, hok]

end

/-- C10: with the named tool present, validateToolConfig returns null
exactly when every declared parameter, at the top level, nested inside
object properties at any depth, or as an array item shape, carries a
recognized type tag and every enum-typed one a non-empty enum list; it
returns an error string whenever any such parameter violates one of these,
even though the compilers themselves never reject such shapes. -/
theorem validate_tool_config_wf (config : DevToolsConfig) (toolName : String)
    (tc : PromptConfig) (h : alookup config toolName = some tc) :
    validateToolConfig config toolName = none ↔
      (match tc.parameters with
       | some params => params.all (fun np => wfParam np.2) = true
       | none => True) := by
  simp only [validateToolConfig, h]
  cases hp : tc.parameters with
  | none => simp
  | some params => simpa using validateParams_none params

/-- Witness for C10: a tool whose parameters are all well formed validates
to null, while one declaring an empty enum does not. -/
theorem validate_tool_config_wf_witness :
    validateToolConfig
      [("t", { parameters := some [
          ("q", ParameterConfig.mk (some "string") none true none none none none),
          ("z", ParameterConfig.mk (some "enum") none false none (some [.str "a"]) none none)] })]
      "t" = none ∧
    validateToolConfig
      [("t", { parameters := some [
          ("p", ParameterConfig.mk (some "enum") none false none (some []) none none)] })]
      "t" ≠ none := by
  constructor
  · exact (validate_tool_config_wf
      [("t", { parameters := some [
          ("q", ParameterConfig.mk (some "string") none true none none none none),
          ("z", ParameterConfig.mk (some "enum") none false none (some [.str "a"]) none none)] })]
      "t" _ rfl).2 (by decide)
  · intro hc
    have := (validate_tool_config_wf
      [("t", { parameters := some [
          ("p", ParameterConfig.mk (some "enum") none false none (some []) none none)] })]
      "t" _ rfl).1 hc
    simp [wfParam, wfBody, typeOk, validTypes, enumMissingOrEmpty, ParameterConfig.type_mk] at this

end WorkflowsMcp
